import Mathlib

/-!
Verification of the veloren out-of-band status-query service and the
farm-field generator.

The query-protocol component (wire codec, responder, requester, live status
source, metrics) is embedded from its specification, since only its demo
caller `common/query_server/examples/demo.rs` is among the source files.
The farm-field component is embedded directly from
`world/src/site2/plot/farm_field.rs`.
-/

namespace QueryProtocol

/-- Modelled from the spec: the `battle_mode` enumeration of `StatusRecord`
(`ServerBattleMode` in the demo); a small closed set of modes: global-PvP,
global-PvE, and a per-player-override variant carrying a boolean. -/
inductive BattleMode where
  | globalPvP : BattleMode
  | globalPvE : BattleMode
  | perPlayer (allowed : Bool) : BattleMode
deriving DecidableEq, Repr

/-- Modelled from the spec: `StatusRecord` (`ServerInfo` in the demo), a pure
value type: `build_id` is an 8-byte opaque sequence, `players_count` and
`player_cap` are unsigned integers of fixed wire width, `battle_mode` is the
enumerated mode tag. Bytes are modelled as natural numbers below 256. -/
structure StatusRecord where
  build_id : List Nat
  players_count : Nat
  player_cap : Nat
  battle_mode : BattleMode
deriving DecidableEq, Repr

/-- Modelled from the spec: a `StatusRecord` is valid when `build_id` has
exactly 8 bytes, each a byte value, and the two counters fit the 2-byte
network-order wire width. -/
def ValidRecord (r : StatusRecord) : Prop :=
  r.build_id.length = 8 ∧ (∀ b ∈ r.build_id, b < 256) ∧
    r.players_count < 65536 ∧ r.player_cap < 65536

instance (r : StatusRecord) : Decidable (ValidRecord r) := by
  unfold ValidRecord; infer_instance

/-- Modelled from the spec: the 1-byte magic/version tag every message
begins with. -/
def VERSION : Nat := 1

/-- Modelled from the spec: decode errors; `MalformedMessage` covers a bad
magic/version, a truncated buffer, an out-of-range field and an unknown
enumeration tag. -/
inductive DecodeError where
  | malformedMessage : DecodeError
deriving DecidableEq, Repr

/-- Big-endian 2-byte encoding of an integer field. -/
def be16 (n : Nat) : List Nat := [n / 256 % 256, n % 256]

/-- Modelled from the spec: the tag byte selecting the `battle_mode`
variant. -/
def battleModeTag : BattleMode → Nat
  | .globalPvP => 0
  | .globalPvE => 1
  | .perPlayer _ => 2

/-- Modelled from the spec: the variant payload following the `battle_mode`
tag byte (empty for the global modes, one boolean byte for the per-player
override). -/
def battleModePayload : BattleMode → List Nat
  | .globalPvP => []
  | .globalPvE => []
  | .perPlayer b => [if b then 1 else 0]

/-- Modelled from the spec: decoding of the `battle_mode` tag byte plus its
payload; unknown tags or an out-of-range payload byte yield no variant. -/
def decodeBattleMode (tag : Nat) (payload : List Nat) : Option BattleMode :=
  match tag, payload with
  | 0, [] => some .globalPvP
  | 1, [] => some .globalPvE
  | 2, [0] => some (.perPlayer false)
  | 2, [1] => some (.perPlayer true)
  | _, _ => none

/-- Modelled from the spec: response frame
`[version:1][build_id:8][players_count:2][player_cap:2][battle_mode_tag:1][battle_mode_payload:0..]`,
multi-byte integers in network byte order. -/
def encode_response (r : StatusRecord) : List Nat :=
  VERSION :: r.build_id ++ be16 r.players_count ++ be16 r.player_cap ++
    battleModeTag r.battle_mode :: battleModePayload r.battle_mode

/-- Modelled from the spec: the minimum response length (version byte, 8-byte
build id, two 2-byte counters, battle-mode tag byte). -/
def MIN_RESPONSE_LEN : Nat := 14

/-- Modelled from the spec: `decode_response`; fails with `MalformedMessage`
when the buffer is shorter than the minimum message length, the version tag
is unrecognized, a field byte is out of range, or the `battle_mode` tag is
unknown. -/
def decode_response (bs : List Nat) : Except DecodeError StatusRecord :=
  if bs.length < MIN_RESPONSE_LEN then .error .malformedMessage
  else if ¬ (∀ b ∈ bs, b < 256) then .error .malformedMessage
  else if bs.getD 0 0 ≠ VERSION then .error .malformedMessage
  else
    match decodeBattleMode (bs.getD 13 0) (bs.drop 14) with
    | none => .error .malformedMessage
    | some mode =>
        .ok { build_id := (bs.drop 1).take 8
              players_count := bs.getD 9 0 * 256 + bs.getD 10 0
              player_cap := bs.getD 11 0 * 256 + bs.getD 12 0
              battle_mode := mode }

/-- A list of naturals of length 8 is an explicit 8-tuple. -/
theorem exists_eight (l : List Nat) (h : l.length = 8) :
    ∃ a b c d e f g h, l = [a, b, c, d, e, f, g, h] := by
  match l, h with
  | [a, b, c, d, e, f, g, h], _ => exact ⟨a, b, c, d, e, f, g, h, rfl⟩

/-- A decoded battle mode always came from a recognized tag byte. -/
theorem decodeBattleMode_tag (t : Nat) (p : List Nat) (m : BattleMode)
    (h : decodeBattleMode t p = some m) : t = 0 ∨ t = 1 ∨ t = 2 := by
  unfold decodeBattleMode at h
  split at h <;> simp_all

end QueryProtocol

namespace QueryProtocol

/-- C1: for every valid `StatusRecord` `r`, decoding the encoding of a
response round-trips exactly: `decode_response (encode_response r) = .ok r`,
field for field. -/
theorem response_roundtrip (r : StatusRecord) (hv : ValidRecord r) :
    decode_response (encode_response r) = .ok r := by
  obtain ⟨bid, pc, cap, bm⟩ := r
  obtain ⟨hlen, hbytes, hpc, hcap⟩ := hv
  dsimp only at hlen hbytes hpc hcap
  obtain ⟨a, b, c, d, e, f, g, h, rfl⟩ := exists_eight bid hlen
  simp only [List.mem_cons, List.not_mem_nil, or_false, forall_eq_or_imp,
    forall_eq] at hbytes
  obtain ⟨ha, hb, hc, hd, he, hf, hg, hh⟩ := hbytes
  cases bm with
  | globalPvP =>
      simp only [encode_response, be16, battleModeTag, battleModePayload, VERSION,
        List.cons_append, List.nil_append]
      simp only [decode_response, MIN_RESPONSE_LEN, VERSION, List.length_cons,
        List.length_nil, List.getD, List.drop, List.take, decodeBattleMode]
      norm_num
      rw [if_neg (by omega)]
      simp only [Except.ok.injEq, StatusRecord.mk.injEq]
      exact ⟨by first | rfl | trivial, by omega, by omega, by first | rfl | trivial⟩
  | globalPvE =>
      simp only [encode_response, be16, battleModeTag, battleModePayload, VERSION,
        List.cons_append, List.nil_append]
      simp only [decode_response, MIN_RESPONSE_LEN, VERSION, List.length_cons,
        List.length_nil, List.getD, List.drop, List.take, decodeBattleMode]
      norm_num
      rw [if_neg (by omega)]
      simp only [Except.ok.injEq, StatusRecord.mk.injEq]
      exact ⟨by first | rfl | trivial, by omega, by omega, by first | rfl | trivial⟩
  | perPlayer pb =>
      cases pb <;>
      · simp only [encode_response, be16, battleModeTag, battleModePayload, VERSION,
          List.cons_append, List.nil_append]
        simp only [decode_response, MIN_RESPONSE_LEN, VERSION, List.length_cons,
          List.length_nil, List.getD, List.drop, List.take, decodeBattleMode,
          if_true, if_false, Bool.false_eq_true]
        norm_num
        rw [if_neg (by omega)]
        simp only [Except.ok.injEq, StatusRecord.mk.injEq]
        exact ⟨by first | rfl | trivial, by omega, by omega, by first | rfl | trivial⟩

/-- C1 witness: the round-trip theorem applied to the demo's default record
(zero build id, 100 players, cap 300, global PvE). -/
theorem response_roundtrip_witness :
    ValidRecord ⟨[0, 0, 0, 0, 0, 0, 0, 0], 100, 300, .globalPvE⟩ ∧
      decode_response (encode_response ⟨[0, 0, 0, 0, 0, 0, 0, 0], 100, 300, .globalPvE⟩) =
        .ok ⟨[0, 0, 0, 0, 0, 0, 0, 0], 100, 300, .globalPvE⟩ :=
  ⟨by decide, response_roundtrip _ (by decide)⟩

/-- C2: every byte sequence shorter than the minimum response length is
rejected by `decode_response` with `MalformedMessage`, never a default or
partially-filled record (the decoder is a total function, so the caller is
never crashed). -/
theorem short_buffer_rejected (bs : List Nat) (h : bs.length < MIN_RESPONSE_LEN) :
    decode_response bs = .error .malformedMessage := by
  simp [decode_response, h]

/-- C2 witness: the empty buffer and a 13-byte buffer are both rejected. -/
theorem short_buffer_rejected_witness :
    decode_response [] = .error .malformedMessage ∧
      decode_response [1, 0, 0, 0, 0, 0, 0, 0, 0, 0, 0, 0, 0] = .error .malformedMessage :=
  ⟨short_buffer_rejected [] (by decide),
    short_buffer_rejected [1, 0, 0, 0, 0, 0, 0, 0, 0, 0, 0, 0, 0] (by decide)⟩

/-- C3: every byte sequence whose battle-mode tag byte (wire offset 13) is
outside the recognized set `{0, 1, 2}` fails to decode with
`MalformedMessage`; no default variant is substituted. -/
theorem unknown_tag_rejected (bs : List Nat)
    (htag : ¬(bs.getD 13 0 = 0 ∨ bs.getD 13 0 = 1 ∨ bs.getD 13 0 = 2)) :
    decode_response bs = .error .malformedMessage := by
  unfold decode_response
  split
  · rfl
  split
  · rfl
  split
  · rfl
  cases hm : decodeBattleMode (bs.getD 13 0) (bs.drop 14) with
  | none => simp only [hm]
  | some m => exact absurd (decodeBattleMode_tag _ _ _ hm) htag

/-- C3 witness: a well-sized, well-versioned buffer with tag byte 7 is
rejected. -/
theorem unknown_tag_rejected_witness :
    decode_response [1, 0, 0, 0, 0, 0, 0, 0, 0, 0, 0, 0, 0, 7] =
      .error .malformedMessage :=
  unknown_tag_rejected [1, 0, 0, 0, 0, 0, 0, 0, 0, 0, 0, 0, 0, 7] (by decide)

/-- Modelled from the spec: request frame `[version:1]` plus optional reserved
padding; `decode_request` accepts a buffer beginning with the recognized
version tag and rejects everything else with `MalformedMessage`. -/
def decode_request (bs : List Nat) : Except DecodeError Unit :=
  match bs with
  | v :: _ => if v = VERSION then .ok () else .error .malformedMessage
  | [] => .error .malformedMessage

/-- A request datagram is well-formed when `decode_request` accepts it. -/
def wellFormedRequest (bs : List Nat) : Bool :=
  match decode_request bs with
  | .ok _ => true
  | .error _ => false

/-- Modelled from the spec: encoding of a request (the version tag alone). -/
def encode_request : List Nat := [VERSION]

/-- Modelled from the spec: the Metrics counters the Responder updates
(requests received, responses sent, decode errors); monotonically increasing,
updated atomically. -/
structure Metrics where
  received : Nat
  responses_sent : Nat
  decode_errors : Nat
deriving DecidableEq, Repr

/-- The all-zero Metrics a server starts with (`Metrics::default()`). -/
def Metrics.init : Metrics := ⟨0, 0, 0⟩

/-- Modelled from the spec: one iteration of the Responder's loop on a
received datagram. On decode failure: increment the error counter and
continue without responding. On success: read the latest record `r`, encode
a response, send it, and increment the response counter. -/
def responderStep (r : StatusRecord) (st : Metrics × List (List Nat))
    (d : List Nat) : Metrics × List (List Nat) :=
  match decode_request d with
  | .error _ =>
      ({ st.1 with received := st.1.received + 1,
                   decode_errors := st.1.decode_errors + 1 }, st.2)
  | .ok _ =>
      ({ st.1 with received := st.1.received + 1,
                   responses_sent := st.1.responses_sent + 1 },
        st.2 ++ [encode_response r])

/-- Modelled from the spec: the Responder's receive loop over a finite trace
of incoming datagrams, threading the Metrics and the list of responses sent. -/
def responderRun (r : StatusRecord) (st : Metrics × List (List Nat))
    (ds : List (List Nat)) : Metrics × List (List Nat) :=
  ds.foldl (responderStep r) st

/-- Counter bookkeeping of the responder loop: every datagram is consumed,
well-formed ones produce responses, malformed ones produce error counts, and
every sent datagram is an encoding of the current record. -/
theorem responderRun_counts (r : StatusRecord) (ds : List (List Nat))
    (m : Metrics) (sent : List (List Nat)) :
    (responderRun r (m, sent) ds).1.received = m.received + ds.length ∧
    (responderRun r (m, sent) ds).1.responses_sent =
      m.responses_sent + ds.countP wellFormedRequest ∧
    (responderRun r (m, sent) ds).1.decode_errors =
      m.decode_errors + ds.countP (fun d => !wellFormedRequest d) ∧
    (responderRun r (m, sent) ds).2.length =
      sent.length + ds.countP wellFormedRequest ∧
    ((∀ o ∈ sent, o = encode_response r) →
      ∀ o ∈ (responderRun r (m, sent) ds).2, o = encode_response r) := by
  induction ds generalizing m sent with
  | nil => simp [responderRun]
  | cons d ds ih =>
      simp only [responderRun, List.foldl_cons, List.countP_cons]
      cases hd : decode_request d with
      | error e =>
          have hw : wellFormedRequest d = false := by
            simp [wellFormedRequest, hd]
          have := ih { m with received := m.received + 1,
                              decode_errors := m.decode_errors + 1 } sent
          simp only [responderRun] at this
          simp only [responderStep, hd, hw, Bool.not_false, if_true, if_false,
            Bool.false_eq_true, cond_false, cond_true, List.length_cons,
            List.length_nil] at *
          refine ⟨by omega, by omega, by omega, by omega, ?_⟩
          intro hsent
          exact this.2.2.2.2 hsent
      | ok u =>
          have hw : wellFormedRequest d = true := by
            simp [wellFormedRequest, hd]
          have := ih { m with received := m.received + 1,
                              responses_sent := m.responses_sent + 1 }
            (sent ++ [encode_response r])
          simp only [responderRun] at this
          simp only [responderStep, hd, hw, Bool.not_true, if_true, if_false,
            Bool.false_eq_true, cond_false, cond_true, List.length_append,
            List.length_cons, List.length_nil] at *
          refine ⟨by omega, by omega, by omega, by omega, ?_⟩
          intro hsent
          refine this.2.2.2.2 ?_
          intro o ho
          rcases List.mem_append.1 ho with h | h
          · exact hsent o h
          · simpa using h

/-- C4: a trace of M well-formed requests interleaved with K malformed ones
yields exactly M responses and decode-error count K; every datagram of the
trace is consumed (the loop never stops on malformed input), and every
response sent is an encoding of the current record — no response is ever
sent for a malformed datagram. -/
theorem malformed_input_isolation (r : StatusRecord) (ds : List (List Nat))
    (M K : Nat) (hM : ds.countP wellFormedRequest = M)
    (hK : ds.countP (fun d => !wellFormedRequest d) = K) :
    (responderRun r (Metrics.init, []) ds).2.length = M ∧
    (responderRun r (Metrics.init, []) ds).1.decode_errors = K ∧
    (responderRun r (Metrics.init, []) ds).1.received = ds.length ∧
    (∀ o ∈ (responderRun r (Metrics.init, []) ds).2, o = encode_response r) := by
  have h := responderRun_counts r ds Metrics.init []
  refine ⟨?_, ?_, ?_, ?_⟩
  · rw [h.2.2.2.1, hM]; simp
  · rw [h.2.2.1, hK]; simp [Metrics.init]
  · rw [h.1]; simp [Metrics.init]
  · exact h.2.2.2.2 (by intro o ho; cases ho)

/-- C4 witness: the trace `[[1], [], [1], [9]]` (two well-formed requests
interleaved with two malformed datagrams) yields two responses, two decode
errors, and four received datagrams. -/
theorem malformed_input_isolation_witness :
    (responderRun ⟨[0, 0, 0, 0, 0, 0, 0, 0], 100, 300, .globalPvE⟩
        (Metrics.init, []) [[1], [], [1], [9]]).2.length = 2 ∧
    (responderRun ⟨[0, 0, 0, 0, 0, 0, 0, 0], 100, 300, .globalPvE⟩
        (Metrics.init, []) [[1], [], [1], [9]]).1.decode_errors = 2 :=
  have h := malformed_input_isolation ⟨[0, 0, 0, 0, 0, 0, 0, 0], 100, 300, .globalPvE⟩
    [[1], [], [1], [9]] 2 2 (by decide) (by decide)
  ⟨h.1, h.2.1⟩

/-- Modelled from the spec: `publish` on the LiveStatusSource (the watch
channel's sender) appends a new record to the publication history; the
current value is the most recently published one. -/
def publish (history : List StatusRecord) (r : StatusRecord) : List StatusRecord :=
  history ++ [r]

/-- Modelled from the spec: the read-latest operation of the LiveStatusSource
(the watch channel's borrow): returns the most recently published record. -/
def readLatest : List StatusRecord → Option StatusRecord
  | [] => none
  | [r] => some r
  | _ :: r :: rest => readLatest (r :: rest)

/-- Folding further publishes onto a history appends them in order. -/
theorem foldl_publish (l : List StatusRecord) (rs : List StatusRecord) :
    List.foldl publish l rs = l ++ rs := by
  induction rs generalizing l with
  | nil => simp
  | cons r rs ih => simp [publish, ih]

/-- Reading skips any prefix of the history before a nonempty suffix. -/
theorem readLatest_append (l : List StatusRecord) (r : StatusRecord)
    (rs : List StatusRecord) :
    readLatest (l ++ r :: rs) = readLatest (r :: rs) := by
  induction l with
  | nil => rfl
  | cons a l ih =>
      cases l with
      | nil => simp only [List.cons_append, List.nil_append, readLatest, ih]
      | cons b l => simp only [List.cons_append, readLatest]; exact ih

/-- What is read was published. -/
theorem readLatest_mem (r : StatusRecord) (rs : List StatusRecord) (x : StatusRecord)
    (hx : readLatest (r :: rs) = some x) : x ∈ r :: rs := by
  induction rs generalizing r with
  | nil =>
      simp only [readLatest, Option.some.injEq] at hx
      simp [hx]
  | cons b rs ih =>
      simp only [readLatest] at hx
      exact List.mem_cons_of_mem r (ih b hx)

/-- C5: once `publish r2` completes, every subsequent read — after any
further sequence `rs` of publishes — returns `r2` or a record published
after it, never an older record. -/
theorem read_after_publish (h : List StatusRecord) (r2 : StatusRecord)
    (rs : List StatusRecord) :
    ∃ x, readLatest (List.foldl publish (publish h r2) rs) = some x ∧
      x ∈ r2 :: rs := by
  rw [foldl_publish, publish, List.append_assoc, List.singleton_append,
    readLatest_append]
  have hne : ∀ (r : StatusRecord) (l : List StatusRecord),
      ∃ x, readLatest (r :: l) = some x := by
    intro r l
    induction l generalizing r with
    | nil => exact ⟨r, rfl⟩
    | cons b l ih => simpa only [readLatest] using ih b
  obtain ⟨x, hx⟩ := hne r2 rs
  exact ⟨x, hx, readLatest_mem r2 rs x hx⟩

/-- Modelled from the spec: the client-side error taxonomy: `Timeout` when no
response arrives in time, `MalformedMessage` when a response fails to
decode. -/
inductive QueryError where
  | timeout : QueryError
  | malformedMessage : QueryError
deriving DecidableEq, Repr

/-- Modelled from the spec: the Requester's `status(timeout)` call
(`QueryClient::server_info` in the demo). The network's behaviour is the
parameter `resp`: `none` when no response ever arrives, `some (t, bs)` when
a response with bytes `bs` arrives `t` time units after the send. The first
component of the result is the list of request datagrams sent during the
call — the Requester sends exactly one and performs no internal retries —
and the second is the result: the decoded record with the measured
round-trip duration, or a `QueryError`. -/
def status (timeout : Nat) (resp : Option (Nat × List Nat)) :
    List (List Nat) × Except QueryError (StatusRecord × Nat) :=
  ([encode_request],
    match resp with
    | none => .error .timeout
    | some (t, bs) =>
        if timeout < t then .error .timeout
        else
          match decode_response bs with
          | .error _ => .error .malformedMessage
          | .ok r => .ok (r, t))

/-- C6: `status(timeout)` sends exactly one request (no internal retries);
it returns `Timeout` whenever no response arrives within the caller-supplied
timeout, and `MalformedMessage` whenever a response arrives in time but
fails to decode. -/
theorem status_contract (timeout : Nat) (resp : Option (Nat × List Nat)) :
    (status timeout resp).1.length = 1 ∧
    (resp = none → (status timeout resp).2 = .error .timeout) ∧
    (∀ t bs, resp = some (t, bs) → timeout < t →
      (status timeout resp).2 = .error .timeout) ∧
    (∀ t bs e, resp = some (t, bs) → t ≤ timeout →
      decode_response bs = .error e →
      (status timeout resp).2 = .error .malformedMessage) := by
  refine ⟨rfl, ?_, ?_, ?_⟩
  · rintro rfl; rfl
  · rintro t bs rfl ht
    simp [status, if_pos ht]
  · rintro t bs e rfl ht hdec
    simp [status, Nat.not_lt.2 ht, hdec]

/-- C6 witness: with no arrival the result is `Timeout`; with a response of
empty bytes arriving at time 2 within a timeout of 5 the result is
`MalformedMessage`; one request datagram is sent in each case. -/
theorem status_contract_witness :
    (status 5 none).1.length = 1 ∧
    (status 5 none).2 = .error .timeout ∧
    (status 5 (some (2, []))).2 = .error .malformedMessage :=
  ⟨(status_contract 5 none).1,
    (status_contract 5 none).2.1 rfl,
    (status_contract 5 (some (2, []))).2.2.2 2 [] .malformedMessage rfl
      (by decide) (short_buffer_rejected [] (by decide))⟩

/-- Modelled from the spec: a transport event seen by the Responder's `run`
loop: a received datagram, a per-packet receive error (logged, loop
continues), or a fatal transport error (propagates out of `run`). -/
inductive RecvEvent where
  | packet (bs : List Nat) : RecvEvent
  | recvErrTransient : RecvEvent
  | recvErrFatal (code : Nat) : RecvEvent
deriving DecidableEq, Repr

/-- Modelled from the spec: the Responder's `run` over a finite trace of
transport events. Packets are handled by `responderStep`; per-packet
receive errors are skipped; a fatal transport error stops the loop and is
carried out as `some code`. A `none` second component means the loop is
still running, awaiting more input — `run`'s type `Result<Never, IoError>`
has no normal-return value. -/
def runLoop (r : StatusRecord) (st : Metrics × List (List Nat)) :
    List RecvEvent → (Metrics × List (List Nat)) × Option Nat
  | [] => (st, none)
  | .packet bs :: rest => runLoop r (responderStep r st bs) rest
  | .recvErrTransient :: rest => runLoop r st rest
  | .recvErrFatal c :: _ => (st, some c)

/-- A code returned by the loop labels a fatal transport event of the
trace. -/
theorem runLoop_fatal_mem (r : StatusRecord) (evts : List RecvEvent) :
    ∀ (st : Metrics × List (List Nat)) c,
      (runLoop r st evts).2 = some c → RecvEvent.recvErrFatal c ∈ evts := by
  induction evts with
  | nil => intro st c hc; cases hc
  | cons e rest ih =>
      intro st c hc
      cases e with
      | packet bs =>
          exact List.mem_cons_of_mem _ (ih (responderStep r st bs) c hc)
      | recvErrTransient => exact List.mem_cons_of_mem _ (ih st c hc)
      | recvErrFatal c0 =>
          simp only [runLoop, Option.some.injEq] at hc
          simp [hc]

/-- On a trace with no fatal transport event the loop never returns. -/
theorem runLoop_none_of_no_fatal (r : StatusRecord) (evts : List RecvEvent) :
    ∀ (st : Metrics × List (List Nat)),
      (∀ c, RecvEvent.recvErrFatal c ∉ evts) → (runLoop r st evts).2 = none := by
  induction evts with
  | nil => intro st _; rfl
  | cons e rest ih =>
      intro st hno
      cases e with
      | packet bs =>
          exact ih (responderStep r st bs) fun c hc =>
            hno c (List.mem_cons_of_mem _ hc)
      | recvErrTransient =>
          exact ih st fun c hc => hno c (List.mem_cons_of_mem _ hc)
      | recvErrFatal c0 => exact absurd (List.mem_cons_self _ _) (hno c0)

/-- The first fatal transport event of the trace stops the loop and its code
is carried out as the loop's error result. -/
theorem runLoop_propagates_fatal (r : StatusRecord) (pre : List RecvEvent) :
    ∀ (st : Metrics × List (List Nat)) c (suf : List RecvEvent),
      (∀ c', RecvEvent.recvErrFatal c' ∉ pre) →
      (runLoop r st (pre ++ RecvEvent.recvErrFatal c :: suf)).2 = some c := by
  induction pre with
  | nil => intro st c suf _; rfl
  | cons e pre ih =>
      intro st c suf hno
      cases e with
      | packet bs =>
          exact ih (responderStep r st bs) c suf fun c' hc' =>
            hno c' (List.mem_cons_of_mem _ hc')
      | recvErrTransient =>
          exact ih st c suf fun c' hc' => hno c' (List.mem_cons_of_mem _ hc')
      | recvErrFatal c0 => exact absurd (List.mem_cons_self _ _) (hno c0)

/-- C7: per-packet receive errors never escape the `run` loop — on a trace
with no fatal transport error the loop never returns — while fatal
transport errors do propagate out of `run`: as soon as the trace reaches
its first fatal event, the loop stops and returns exactly that event's
error code; and every code the loop ever returns labels a fatal event of
the trace, so `run` never returns normally. -/
theorem run_error_semantics (r : StatusRecord) (st : Metrics × List (List Nat))
    (evts : List RecvEvent) :
    (∀ c, (runLoop r st evts).2 = some c → RecvEvent.recvErrFatal c ∈ evts) ∧
    ((∀ c, RecvEvent.recvErrFatal c ∉ evts) → (runLoop r st evts).2 = none) ∧
    (∀ pre c suf, evts = pre ++ RecvEvent.recvErrFatal c :: suf →
      (∀ c', RecvEvent.recvErrFatal c' ∉ pre) →
      (runLoop r st evts).2 = some c) := by
  refine ⟨runLoop_fatal_mem r evts st, runLoop_none_of_no_fatal r evts st, ?_⟩
  rintro pre c suf rfl hpre
  exact runLoop_propagates_fatal r pre st c suf hpre

/-- C7 witness: a trace of one transient receive error and one packet leaves
the loop running (no return value), while the trace whose second event is a
fatal error with code 3 makes the loop return exactly the code 3. -/
theorem run_error_semantics_witness :
    (runLoop ⟨[0, 0, 0, 0, 0, 0, 0, 0], 100, 300, .globalPvE⟩ (Metrics.init, [])
        [.recvErrTransient, .packet [1]]).2 = none ∧
    (runLoop ⟨[0, 0, 0, 0, 0, 0, 0, 0], 100, 300, .globalPvE⟩ (Metrics.init, [])
        [.recvErrTransient, .recvErrFatal 3]).2 = some 3 :=
  ⟨(run_error_semantics ⟨[0, 0, 0, 0, 0, 0, 0, 0], 100, 300, .globalPvE⟩
      (Metrics.init, []) [.recvErrTransient, .packet [1]]).2.1
      (by intro c hc; simp at hc),
    (run_error_semantics ⟨[0, 0, 0, 0, 0, 0, 0, 0], 100, 300, .globalPvE⟩
      (Metrics.init, []) [.recvErrTransient, .recvErrFatal 3]).2.2
      [.recvErrTransient] 3 [] rfl (by intro c' hc'; simp at hc')⟩

/-- The length of a list of ids below `N` is the sum of the per-id
occurrence counts. -/
theorem length_eq_sum_count (N : Nat) (l : List Nat) (h : ∀ i ∈ l, i < N) :
    l.length = ∑ i in Finset.range N, l.count i := by
  induction l with
  | nil => simp
  | cons a l ih =>
      have ha : a ∈ Finset.range N := Finset.mem_range.2 (h a (by simp))
      have ih' := ih fun i hi => h i (List.mem_cons_of_mem _ hi)
      simp only [List.length_cons, ih', List.count_cons, Finset.sum_add_distrib,
        beq_iff_eq]
      rw [Finset.sum_ite_eq (Finset.range N) a fun _ => 1, if_pos ha]

/-- Every datagram of a schedule of requester requests is well-formed, so
its well-formed count is the schedule length. -/
theorem countP_schedule (ids : List Nat) :
    (ids.map fun _ => encode_request).countP wellFormedRequest = ids.length := by
  induction ids with
  | nil => rfl
  | cons a l ih =>
      rw [List.map_cons, List.countP_cons, ih]
      norm_num [wellFormedRequest, decode_request, encode_request, VERSION]

/-- Modelled from the spec: a concurrent execution of N requesters, each
issuing M well-formed requests against one Responder, as an interleaving: a
schedule lists, in completion order, the id of the requester whose request
the responder handles next; counter updates are atomic
(fetch-and-increment), so the interleaved execution is the sequence of
`responderStep`s the schedule induces and no increment is lost. -/
def runSchedule (r : StatusRecord) (ids : List Nat) : Metrics × List (List Nat) :=
  responderRun r (Metrics.init, []) (ids.map fun _ => encode_request)

/-- No datagram of a schedule of requester requests is malformed. -/
theorem countP_schedule_err (ids : List Nat) :
    (ids.map fun _ => encode_request).countP
      (fun d => !wellFormedRequest d) = 0 := by
  induction ids with
  | nil => rfl
  | cons a l ih =>
      rw [List.map_cons, List.countP_cons, ih]
      norm_num [wellFormedRequest, decode_request, encode_request, VERSION]

/-- Running the responder on further datagrams never decreases a counter. -/
theorem responderRun_le (r : StatusRecord) (ds : List (List Nat))
    (st : Metrics × List (List Nat)) :
    st.1.received ≤ (responderRun r st ds).1.received ∧
    st.1.responses_sent ≤ (responderRun r st ds).1.responses_sent ∧
    st.1.decode_errors ≤ (responderRun r st ds).1.decode_errors := by
  obtain ⟨m, sent⟩ := st
  have h := responderRun_counts r ds m sent
  dsimp only
  exact ⟨by omega, by omega, by omega⟩

/-- Extending a schedule never decreases a counter. -/
theorem runSchedule_le (r : StatusRecord) (pre mid : List Nat) :
    (runSchedule r pre).1.received ≤ (runSchedule r (pre ++ mid)).1.received ∧
    (runSchedule r pre).1.responses_sent ≤
      (runSchedule r (pre ++ mid)).1.responses_sent ∧
    (runSchedule r pre).1.decode_errors ≤
      (runSchedule r (pre ++ mid)).1.decode_errors := by
  have h := responderRun_le r (mid.map fun _ => encode_request)
    (responderRun r (Metrics.init, []) (pre.map fun _ => encode_request))
  simp only [runSchedule, responderRun, List.map_append, List.foldl_append] at *
  exact h

/-- C8: for every interleaving of N requesters each issuing M requests, the
request counter ends at exactly N×M, the response counter at exactly N×M
and the decode-error counter at 0 (no increment lost), and along the
execution every counter is monotonically non-decreasing: at any two points
in time — after `k` and after `m ≥ k` handled requests — the earlier value
of each counter is at most the later one. -/
theorem concurrent_counter_totals (r : StatusRecord) (N M : Nat) (ids : List Nat)
    (hmem : ∀ i ∈ ids, i < N) (hcount : ∀ i, i < N → ids.count i = M) :
    (runSchedule r ids).1.received = N * M ∧
    (runSchedule r ids).1.responses_sent = N * M ∧
    (runSchedule r ids).1.decode_errors = 0 ∧
    (∀ k m, k ≤ m →
      (runSchedule r (ids.take k)).1.received ≤
        (runSchedule r (ids.take m)).1.received ∧
      (runSchedule r (ids.take k)).1.responses_sent ≤
        (runSchedule r (ids.take m)).1.responses_sent ∧
      (runSchedule r (ids.take k)).1.decode_errors ≤
        (runSchedule r (ids.take m)).1.decode_errors) := by
  have hlen : ids.length = N * M := by
    rw [length_eq_sum_count N ids hmem]
    rw [Finset.sum_congr rfl fun i hi => hcount i (Finset.mem_range.1 hi)]
    simp [Nat.mul_comm]
  have htotal := responderRun_counts r (ids.map fun _ => encode_request)
    Metrics.init []
  have hrec : (runSchedule r ids).1.received = ids.length := by
    rw [runSchedule, htotal.1]; simp [Metrics.init]
  have hresp : (runSchedule r ids).1.responses_sent = ids.length := by
    rw [runSchedule, htotal.2.1, countP_schedule]; simp [Metrics.init]
  have herr : (runSchedule r ids).1.decode_errors = 0 := by
    rw [runSchedule, htotal.2.2.1, countP_schedule_err]; simp [Metrics.init]
  refine ⟨by rw [hrec, hlen], by rw [hresp, hlen], herr, ?_⟩
  intro k m hkm
  have htk : (ids.take m).take k = ids.take k := by
    rw [List.take_take, Nat.min_eq_left hkm]
  have hsplit : ids.take m = ids.take k ++ (ids.take m).drop k := by
    conv_lhs => rw [← List.take_append_drop k (ids.take m)]
    rw [htk]
  rw [hsplit]
  exact runSchedule_le r (ids.take k) ((ids.take m).drop k)

/-- C8 witness: two requesters issuing two requests each, interleaved as
`[0, 1, 1, 0]`, end with request counter 4, response counter 4 and error
counter 0; between the prefixes of length 1 and 3 the request counter does
not decrease. -/
theorem concurrent_counter_totals_witness :
    (runSchedule ⟨[0, 0, 0, 0, 0, 0, 0, 0], 100, 300, .globalPvE⟩
        [0, 1, 1, 0]).1.received = 4 ∧
    (runSchedule ⟨[0, 0, 0, 0, 0, 0, 0, 0], 100, 300, .globalPvE⟩
        [0, 1, 1, 0]).1.responses_sent = 4 ∧
    (runSchedule ⟨[0, 0, 0, 0, 0, 0, 0, 0], 100, 300, .globalPvE⟩
        [0, 1, 1, 0]).1.decode_errors = 0 ∧
    (runSchedule ⟨[0, 0, 0, 0, 0, 0, 0, 0], 100, 300, .globalPvE⟩
        ([0, 1, 1, 0].take 1)).1.received ≤
      (runSchedule ⟨[0, 0, 0, 0, 0, 0, 0, 0], 100, 300, .globalPvE⟩
        ([0, 1, 1, 0].take 3)).1.received := by
  have h := concurrent_counter_totals ⟨[0, 0, 0, 0, 0, 0, 0, 0], 100, 300, .globalPvE⟩
    2 2 [0, 1, 1, 0] (by decide) (by decide)
  exact ⟨h.1, h.2.1, h.2.2.1, (h.2.2.2 1 3 (by norm_num)).1⟩

end QueryProtocol

namespace FarmField

/-- The sprite kinds referenced by `farm_field.rs` (a fragment of the
external `common::terrain::SpriteKind` enumeration). -/
inductive SpriteKind where
  | Empty | WheatGreen | WheatYellow | Flax | Corn
  | BlueFlower | PinkFlower | PurpleFlower | RedFlower | WhiteFlower
  | YellowFlower | Sunflower | LongGrass | MediumGrass | ShortGrass
  | Tomato | Carrot | Radish | Turnip | Cabbage | Pumpkin
  | BarrelCactus | RoundCactus | ShortCactus | MedFlatCactus
  | ShortFlatCactus | LargeCactus | TallCactus
deriving DecidableEq, Repr

/-- The `Crop` enumeration of `farm_field.rs`, in declaration order. -/
inductive Crop where
  | Wildflower | Wheat | Flax | Corn | Tomato | Carrot | Radish | Turnip
  | Cabbage | Pumpkin | Sunflower | Cactus
deriving DecidableEq, Repr

/-- `Crop::iter()` (strum's `EnumIter`): all variants in declaration order. -/
def Crop.iter : List Crop :=
  [.Wildflower, .Wheat, .Flax, .Corn, .Tomato, .Carrot, .Radish, .Turnip,
   .Cabbage, .Pumpkin, .Sunflower, .Cactus]

/-- `Crop::sprites()`: the weighted sprite slice per crop; the `f32` weight
literals of the source are represented exactly as rationals. -/
def Crop.sprites : Crop → List (ℚ × Option SpriteKind)
  | .Wheat =>
      [(4.0, some .Empty), (1.0, some .WheatGreen), (1.0, some .WheatYellow)]
  | .Flax => [(4.0, some .Empty), (1.0, some .Flax)]
  | .Corn => [(4.0, some .Empty), (1.0, some .Corn)]
  | .Wildflower =>
      [(40.0, none), (1.0, some .BlueFlower), (1.0, some .PinkFlower),
       (1.0, some .PurpleFlower), (0.1, some .RedFlower),
       (1.0, some .WhiteFlower), (1.0, some .YellowFlower),
       (1.0, some .Sunflower), (4.0, some .LongGrass),
       (4.0, some .MediumGrass), (4.0, some .ShortGrass)]
  | .Tomato => [(1.5, some .Empty), (1.0, some .Tomato)]
  | .Carrot => [(5.0, some .Empty), (1.0, some .Carrot)]
  | .Radish => [(5.0, some .Empty), (1.0, some .Radish)]
  | .Turnip => [(5.0, some .Empty), (1.0, some .Turnip)]
  | .Cabbage => [(5.0, some .Empty), (1.0, some .Cabbage)]
  | .Pumpkin => [(5.0, some .Empty), (1.0, some .Pumpkin)]
  | .Sunflower => [(5.0, some .Empty), (1.0, some .Sunflower)]
  | .Cactus =>
      [(10.0, some .Empty), (1.0, some .BarrelCactus), (1.0, some .RoundCactus),
       (1.0, some .ShortCactus), (1.0, some .MedFlatCactus),
       (1.0, some .ShortFlatCactus), (1.0, some .LargeCactus),
       (1.0, some .TallCactus)]

/-- `IteratorRandom::choose`: a uniformly random element of the list, the
randomness abstracted as the sampled index `k`; `none` exactly when the list
is empty (`k % 0 = k`, out of range). -/
def listChoose {α : Type} (k : Nat) (l : List α) : Option α := l[k % l.length]?

/-- The crop selection of `FarmField::generate`: in a desert always
`Cactus`; otherwise `choose` over `Crop::iter()` with `Cactus` filtered out
(followed in the source by `.unwrap()`, which relies on the choice
succeeding). The rest of `generate` (bounds, altitude, orientation) does not
affect the crop. -/
def generateCrop (is_desert : Bool) (k : Nat) : Option Crop :=
  if is_desert then some Crop.Cactus
  else listChoose k (Crop.iter.filter fun c => !(c == Crop.Cactus))

/-- The error cases of rand's `SliceRandom::choose_weighted`: empty slice,
a negative weight, or zero total weight. -/
inductive WeightedError where
  | noItem | invalidWeight | allWeightsZero
deriving DecidableEq, Repr

/-- The cumulative-weight walk of a weighted choice: the uniform draw `x`
falls into the sub-interval of the element it selects. -/
def pickWeighted {α : Type} : ℚ → List (ℚ × α) → Option α
  | _, [] => none
  | x, (w, a) :: rest => if x < w then some a else pickWeighted (x - w) rest

/-- `SliceRandom::choose_weighted` over an abstracted uniform draw
`q ∈ [0, 1)`: errors on an empty slice, a negative weight, or a
non-positive total weight; otherwise picks the element whose cumulative
weight interval contains `q` times the total weight. -/
def choose_weighted {α : Type} (q : ℚ) (l : List (ℚ × α)) :
    Except WeightedError α :=
  if l.isEmpty then .error .noItem
  else if l.any fun p => decide (p.1 < 0) then .error .invalidWeight
  else if (l.map Prod.fst).sum ≤ 0 then .error .allWeightsZero
  else
    match pickWeighted (q * (l.map Prod.fst).sum) l with
    | some a => .ok a
    | none => .error .allWeightsZero

/-- A cumulative-weight walk with a draw inside the total weight of a
non-negatively weighted list always selects an element. -/
theorem pickWeighted_total {α : Type} (l : List (ℚ × α)) (x : ℚ)
    (hx : 0 ≤ x) (hlt : x < (l.map Prod.fst).sum) (hw : ∀ p ∈ l, 0 ≤ p.1) :
    ∃ a, pickWeighted x l = some a := by
  induction l generalizing x with
  | nil => simp at hlt; linarith
  | cons p rest ih =>
      obtain ⟨w, a⟩ := p
      by_cases h : x < w
      · exact ⟨a, by simp [pickWeighted, h]⟩
      · push_neg at h
        have hx' : 0 ≤ x - w := by linarith
        have hlt' : x - w < (rest.map Prod.fst).sum := by
          simp only [List.map_cons, List.sum_cons] at hlt; linarith
        obtain ⟨b, hb⟩ := ih (x - w) hx' hlt'
          fun p hp => hw p (List.mem_cons_of_mem _ hp)
        exact ⟨b, by simp [pickWeighted, not_lt.2 h, hb]⟩

/-- C9: in `FarmField::generate`, when `is_desert` is true the chosen crop
is always `Cactus`; when `is_desert` is false the choice always succeeds
(the source's `.unwrap()` cannot panic) and the chosen crop is never
`Cactus`, regardless of the RNG state `k`. -/
theorem generate_crop_modes (k : Nat) :
    generateCrop true k = some Crop.Cactus ∧
    (∃ c, generateCrop false k = some c) ∧
    ∀ c, generateCrop false k = some c → c ≠ Crop.Cactus := by
  have hk : k % (Crop.iter.filter fun c => !(c == Crop.Cactus)).length <
      (Crop.iter.filter fun c => !(c == Crop.Cactus)).length := by
    have h11 : (Crop.iter.filter fun c => !(c == Crop.Cactus)).length = 11 := by
      decide
    rw [h11]
    exact Nat.mod_lt _ (by norm_num)
  have hc0 : generateCrop false k =
      some (Crop.iter.filter fun c => !(c == Crop.Cactus))[k %
        (Crop.iter.filter fun c => !(c == Crop.Cactus)).length] := by
    simp [generateCrop, listChoose, List.getElem?_eq_getElem hk]
  refine ⟨rfl, ⟨_, hc0⟩, ?_⟩
  intro c hc
  rw [hc0] at hc
  have hall : ∀ x ∈ (Crop.iter.filter fun c => !(c == Crop.Cactus)),
      x ≠ Crop.Cactus := by decide
  have := hall _ (List.getElem_mem hk)
  rw [Option.some.inj hc] at this
  exact this

/-- C10: for every `Crop` variant, `Crop::sprites()` is a non-empty slice
whose weights are all strictly positive, so in the `z_off == 1` crop-sprite
branch of `terrain_surface_at` the weighted choice succeeds for every
uniform draw `q ∈ [0, 1)` — `choose_weighted`'s error branch (discarded via
`.ok()`) is unreachable. -/
theorem crop_sprites_weighted_choice_total (c : Crop) (q : ℚ)
    (h0 : 0 ≤ q) (h1 : q < 1) :
    c.sprites ≠ [] ∧ (∀ p ∈ c.sprites, 0 < p.1) ∧
      ∃ a, choose_weighted q c.sprites = .ok a := by
  have hne : c.sprites ≠ [] := by cases c <;> simp [Crop.sprites]
  have hpos : ∀ p ∈ c.sprites, 0 < p.1 := by
    intro p hp
    cases c <;> · fin_cases hp <;> norm_num
  have hsum : 0 < (c.sprites.map Prod.fst).sum := by
    cases c <;> norm_num [Crop.sprites]
  refine ⟨hne, hpos, ?_⟩
  have hx0 : 0 ≤ q * (c.sprites.map Prod.fst).sum :=
    mul_nonneg h0 hsum.le
  have hxlt : q * (c.sprites.map Prod.fst).sum <
      (c.sprites.map Prod.fst).sum := by
    calc q * (c.sprites.map Prod.fst).sum
        < 1 * (c.sprites.map Prod.fst).sum := mul_lt_mul_of_pos_right h1 hsum
      _ = (c.sprites.map Prod.fst).sum := one_mul _
  obtain ⟨a, ha⟩ := pickWeighted_total c.sprites _ hx0 hxlt
    fun p hp => (hpos p hp).le
  refine ⟨a, ?_⟩
  rw [choose_weighted, if_neg, if_neg, if_neg, ha]
  · exact not_le.2 hsum
  · simp only [List.any_eq_true, decide_eq_true_eq, not_exists, not_and]
    intro p hp
    exact not_lt.2 (hpos p hp).le
  · simpa [List.isEmpty_iff] using hne

/-- C10 witness: for `Wheat` and the draw `q = 1/2` the weighted choice
succeeds on a non-empty positively weighted slice. -/
theorem crop_sprites_weighted_choice_total_witness :
    Crop.Wheat.sprites ≠ [] ∧ (∀ p ∈ Crop.Wheat.sprites, 0 < p.1) ∧
      ∃ a, choose_weighted (1 / 2) Crop.Wheat.sprites = .ok a :=
  crop_sprites_weighted_choice_total Crop.Wheat (1 / 2) (by norm_num)
    (by norm_num)

end FarmField
